import Mathlib

/-!
Verification of `src/src/lib/performance.ts` (masatokaneko/budgetplanning).

The source is a single TypeScript module with:
  * `PerformanceMonitor`: a singleton holding `metrics : Map<string, PerformanceMetric>`
    bounded by `maxMetrics = 1000`, with operations `startMeasure`, `endMeasure`,
    `getMetric`, `getAllMetrics`, `clearMetrics`, and the private eviction routine
    `clearOldMetrics` (sort entries by `startTime` ascending, delete the first).
  * `measure(name)`: a method decorator that calls `startMeasure`, awaits the original
    method, and calls `endMeasure` in both the success path and the catch path,
    re-throwing the original error.
  * `withPerformanceMonitoring`: a React HOC that times a render directly (via
    `performance.now()`), logs at debug level, and never touches the store.
  * `monitorPerformance(functionName, startTime)`: computes
    `executionTime = performance.now() - startTime`, emits a `console.warn` when
    `executionTime > 100`, and always emits a `console.log` line.

Embedding choices:
  * `performance.now()` timestamps are modelled as `Int`; each operation takes the
    sampled timestamp as an explicit argument (the clock is external input).
  * The JavaScript `Map` is modelled as an insertion-ordered association list
    `List (String × PerformanceMetric)`: `Map.set` replaces in place when the key is
    present and appends otherwise, `Map.delete` removes the (single) entry with the
    key, `Map.prototype.size` is the list length, iteration order is list order.
    A real `Map` never holds duplicate keys, so theorems that depend on key
    uniqueness take a `KeysNodup` hypothesis.
  * `Array.prototype.sort` with comparator `(a, b) => a.startTime - b.startTime` is
    a stable ascending sort by `startTime`, modelled by `List.mergeSort` (stable)
    with `le p q := p.2.startTime ≤ q.2.startTime`.
  * Logging (`logger.debug/warn`, `console.log/warn`) is modelled as a returned
    list of `LogEvent`s; numeric payload fields are carried in `values`.
  * The decorator's wrapped method is modelled as an arbitrary function
    `Store → Store × Except ε α` (it may itself read or mutate the process-wide
    store); a thrown error is the `Except.error` case.
-/

namespace Perf

/-- Mirrors the TypeScript `PerformanceMetric` interface:
`{ name: string; startTime: number; endTime?: number; duration?: number }`. -/
structure PerformanceMetric where
  name : String
  startTime : Int
  endTime : Option Int
  duration : Option Int
deriving DecidableEq, Repr

/-- The contents of `PerformanceMonitor.metrics` (a `Map<string, PerformanceMetric>`),
as an insertion-ordered association list. -/
abbrev Store := List (String × PerformanceMetric)

/-- Log levels of the `logger` collaborator plus the `console` sink
(`console.log` is informational, `console.warn` is a warning). -/
inductive LogLevel where
  | debug
  | warn
  | info
deriving DecidableEq, Repr

/-- One emitted log line: level, message, and the numeric payload fields. -/
structure LogEvent where
  level : LogLevel
  msg : String
  values : List Int
deriving DecidableEq, Repr

/-- `Map.prototype.get`. -/
def Store.lookup (k : String) : Store → Option PerformanceMetric
  | [] => none
  | p :: rest => if p.1 = k then some p.2 else Store.lookup k rest

/-- `Map.prototype.set`: replace in place when the key is present, append otherwise. -/
def Store.setKey (k : String) (v : PerformanceMetric) : Store → Store
  | [] => [(k, v)]
  | p :: rest => if p.1 = k then (k, v) :: rest else p :: Store.setKey k v rest

/-- `Map.prototype.delete`: remove the entry with key `k` (the first, when the list
is ill-formed and holds several). -/
def Store.deleteKey (k : String) : Store → Store
  | [] => []
  | p :: rest => if p.1 = k then rest else p :: Store.deleteKey k rest

/-- `Map.prototype.size`. -/
def Store.size (s : Store) : Nat := List.length s

/-- A well-formed `Map` snapshot: keys are pairwise distinct. -/
def Store.KeysNodup (s : Store) : Prop := (List.map Prod.fst s).Nodup

/-- `private readonly maxMetrics = 1000`. -/
def maxMetrics : Nat := 1000

/-- Comparator of `clearOldMetrics`:
`.sort(([, a], [, b]) => a.startTime - b.startTime)` sorts ascending by `startTime`. -/
def byStartTime (p q : String × PerformanceMetric) : Bool :=
  p.2.startTime ≤ q.2.startTime

/-- `PerformanceMonitor.clearOldMetrics`: sort all entries ascending by `startTime`
(stably), take the first, and delete its key; do nothing when the store is empty. -/
def clearOldMetrics (s : Store) : Store :=
  match List.head? (List.mergeSort s byStartTime) with
  | some oldest => Store.deleteKey oldest.1 s
  | none => s

/-- `PerformanceMonitor.startMeasure(name)`: evict when `size >= maxMetrics`, then
`set(name, { name, startTime: performance.now() })`. `now` is the sampled timestamp. -/
def startMeasure (now : Int) (name : String) (s : Store) : Store :=
  let s1 := if maxMetrics ≤ Store.size s then clearOldMetrics s else s
  Store.setKey name ⟨name, now, none, none⟩ s1

/-- `PerformanceMonitor.endMeasure(name)`: on a missing name, warn and return
`undefined` leaving the store as is; otherwise set `endTime`, compute
`duration = endTime - startTime`, log at debug level, and return the duration.
Result: (new store contents, returned value, emitted logs). -/
def endMeasure (now : Int) (name : String) (s : Store) :
    Store × Option Int × List LogEvent :=
  match Store.lookup name s with
  | none => (s, none, [⟨LogLevel.warn, "計測 \"" ++ name ++ "\" が見つかりません", []⟩])
  | some metric =>
      let endTime := now
      let duration := endTime - metric.startTime
      let updated : PerformanceMetric :=
        { metric with endTime := some endTime, duration := some duration }
      (Store.setKey name updated s, some duration,
        [⟨LogLevel.debug, "パフォーマンス計測: " ++ name,
          [duration, metric.startTime, endTime]⟩])

/-- `PerformanceMonitor.getMetric(name)`. -/
def getMetric (name : String) (s : Store) : Option PerformanceMetric :=
  Store.lookup name s

/-- `PerformanceMonitor.getAllMetrics()`: `Array.from(this.metrics.values())`. -/
def getAllMetrics (s : Store) : List PerformanceMetric :=
  List.map Prod.snd s

/-- `PerformanceMonitor.clearMetrics()`: `this.metrics.clear()`. -/
def clearMetrics (_s : Store) : Store := []

/-- Store operations the decorator performs, for stating call-count properties. -/
inductive MEvent where
  | startCall : String → MEvent
  | endCall : String → MEvent
deriving DecidableEq, Repr

/-- The `measure(name)` decorator's replacement method body:
`startMeasure(name)`, await the original method, then `endMeasure(name)` on the
success path and on the catch path (re-throwing the original error).
`t1`/`t2` are the timestamps sampled by the two store calls; `f` is the wrapped
method (which may itself touch the process-wide store and may throw).
Result: (new store contents, outcome, store calls made by the wrapper in order). -/
def measure {ε α : Type} (t1 t2 : Int) (name : String)
    (f : Store → Store × Except ε α) (s : Store) :
    Store × Except ε α × List MEvent :=
  let s1 := startMeasure t1 name s
  let fr := f s1
  match fr.2 with
  | Except.ok result =>
      ((endMeasure t2 name fr.1).1, Except.ok result,
        [MEvent.startCall name, MEvent.endCall name])
  | Except.error e =>
      ((endMeasure t2 name fr.1).1, Except.error e,
        [MEvent.startCall name, MEvent.endCall name])

/-- `withPerformanceMonitoring(WrappedComponent, componentName)` applied to `props`:
sample `startTime`, render, sample `endTime`, log at debug level with
duration/startTime/endTime, and return the rendered output. The store is never
consulted: the function's inputs and outputs do not include it. -/
def withPerformanceMonitoring {P R : Type} (render : P → R) (componentName : String)
    (t1 t2 : Int) (props : P) : R × List LogEvent :=
  let startTime := t1
  let result := render props
  let endTime := t2
  let duration := endTime - startTime
  (result,
    [⟨LogLevel.debug, "コンポーネントレンダリング: " ++ componentName,
      [duration, startTime, endTime]⟩])

/-- `monitorPerformance(functionName, startTime)`: compute
`executionTime = performance.now() - startTime`; `console.warn` when
`executionTime > 100`; always `console.log` the elapsed-time line.
The store is never consulted. -/
def monitorPerformance (functionName : String) (startTime : Int) (now : Int) :
    List LogEvent :=
  let endTime := now
  let executionTime := endTime - startTime
  (if 100 < executionTime then
    [⟨LogLevel.warn,
      "Performance warning: " ++ functionName ++ " took " ++ toString executionTime
        ++ "ms to execute", [executionTime]⟩]
   else [])
  ++ [⟨LogLevel.info,
        "Performance: " ++ functionName ++ " - " ++ toString executionTime ++ "ms",
        [executionTime]⟩]

/-! ### Basic lemmas about the `Map` model -/

theorem lookup_setKey_self (k : String) (v : PerformanceMetric) (s : Store) :
    Store.lookup k (Store.setKey k v s) = some v := by
  induction s with
  | nil => simp [Store.setKey, Store.lookup]
  | cons p rest ih =>
      by_cases h : p.1 = k
      · simp [Store.setKey, Store.lookup, h]
      · simp [Store.setKey, Store.lookup, h, ih]

theorem lookup_setKey_ne (k k' : String) (v : PerformanceMetric) (s : Store)
    (h : k' ≠ k) : Store.lookup k' (Store.setKey k v s) = Store.lookup k' s := by
  induction s with
  | nil => simp [Store.setKey, Store.lookup, Ne.symm h]
  | cons p rest ih =>
      by_cases hp : p.1 = k
      · simp [Store.setKey, Store.lookup, hp, Ne.symm h]
      · by_cases hp' : p.1 = k'
        · simp [Store.setKey, Store.lookup, hp, hp', h]
        · simp [Store.setKey, Store.lookup, hp, hp', ih]

theorem lookup_eq_none_iff (k : String) (s : Store) :
    Store.lookup k s = none ↔ ∀ p ∈ s, p.1 ≠ k := by
  induction s with
  | nil => simp [Store.lookup]
  | cons p rest ih =>
      by_cases hp : p.1 = k
      · simp [Store.lookup, hp]
      · simp [Store.lookup, hp, ih]

theorem mem_of_lookup_eq_some {k : String} {m : PerformanceMetric} {s : Store}
    (h : Store.lookup k s = some m) : (k, m) ∈ s := by
  induction s with
  | nil => simp [Store.lookup] at h
  | cons p rest ih =>
      obtain ⟨a, b⟩ := p
      by_cases hp : a = k
      · subst hp
        simp [Store.lookup] at h
        subst h
        exact List.mem_cons_self _ _
      · simp [Store.lookup, hp] at h
        exact List.mem_cons_of_mem _ (ih h)

theorem lookup_eq_some_of_mem {k : String} {m : PerformanceMetric} {s : Store}
    (hnd : Store.KeysNodup s) (hm : (k, m) ∈ s) : Store.lookup k s = some m := by
  induction s with
  | nil => simp at hm
  | cons p rest ih =>
      rcases List.mem_cons.mp hm with h | h
      · subst h
        simp [Store.lookup]
      · have hnd' : Store.KeysNodup rest := (List.nodup_cons.mp hnd).2
        have hp : p.1 ≠ k := by
          intro hk
          have : p.1 ∈ List.map Prod.fst rest :=
            List.mem_map.mpr ⟨(k, m), h, by simp [hk]⟩
          exact (List.nodup_cons.mp hnd).1 this
        simp [Store.lookup, hp, ih hnd' h]

theorem deleteKey_length {k : String} {m : PerformanceMetric} {s : Store}
    (h : Store.lookup k s = some m) :
    (Store.deleteKey k s).length + 1 = s.length := by
  induction s with
  | nil => simp [Store.lookup] at h
  | cons p rest ih =>
      by_cases hp : p.1 = k
      · simp [Store.deleteKey, hp]
      · simp [Store.lookup, hp] at h
        simp [Store.deleteKey, hp, ih h]

theorem lookup_deleteKey_ne (k k' : String) (s : Store) (h : k' ≠ k) :
    Store.lookup k' (Store.deleteKey k s) = Store.lookup k' s := by
  induction s with
  | nil => simp [Store.deleteKey]
  | cons p rest ih =>
      by_cases hp : p.1 = k
      · simp [Store.deleteKey, Store.lookup, hp, Ne.symm h]
      · by_cases hp' : p.1 = k'
        · simp [Store.deleteKey, Store.lookup, hp, hp', h]
        · simp [Store.deleteKey, Store.lookup, hp, hp', ih]

theorem lookup_deleteKey_none {k k' : String} {s : Store}
    (h : Store.lookup k' s = none) :
    Store.lookup k' (Store.deleteKey k s) = none := by
  induction s with
  | nil => simp [Store.deleteKey, Store.lookup]
  | cons p rest ih =>
      by_cases hp' : p.1 = k'
      · simp [Store.lookup, hp'] at h
      · simp [Store.lookup, hp'] at h
        by_cases hp : p.1 = k
        · simpa [Store.deleteKey, hp, Store.lookup, hp'] using h
        · simp [Store.deleteKey, hp, Store.lookup, hp', ih h]

theorem setKey_length_fresh {k : String} {s : Store} (v : PerformanceMetric)
    (h : Store.lookup k s = none) :
    (Store.setKey k v s).length = s.length + 1 := by
  induction s with
  | nil => simp [Store.setKey]
  | cons p rest ih =>
      by_cases hp : p.1 = k
      · simp [Store.lookup, hp] at h
      · simp [Store.lookup, hp] at h
        simp [Store.setKey, hp, ih h]

theorem setKey_length_mem {k : String} {m : PerformanceMetric} {s : Store}
    (v : PerformanceMetric) (h : Store.lookup k s = some m) :
    (Store.setKey k v s).length = s.length := by
  induction s with
  | nil => simp [Store.lookup] at h
  | cons p rest ih =>
      by_cases hp : p.1 = k
      · simp [Store.setKey, hp]
      · simp [Store.lookup, hp] at h
        simp [Store.setKey, hp, ih h]

theorem mem_deleteKey_sub {p : String × PerformanceMetric} {k : String} {s : Store}
    (h : p ∈ Store.deleteKey k s) : p ∈ s := by
  induction s with
  | nil => simp [Store.deleteKey] at h
  | cons q rest ih =>
      by_cases hq : q.1 = k
      · simp [Store.deleteKey, hq] at h
        exact List.mem_cons_of_mem q h
      · simp [Store.deleteKey, hq] at h
        rcases h with h | h
        · exact h ▸ List.mem_cons_self q rest
        · exact List.mem_cons_of_mem q (ih h)

theorem mem_setKey {p : String × PerformanceMetric} {k : String}
    {v : PerformanceMetric} {s : Store} (h : p ∈ Store.setKey k v s) :
    p = (k, v) ∨ p ∈ s := by
  induction s with
  | nil => simpa [Store.setKey] using h
  | cons q rest ih =>
      by_cases hq : q.1 = k
      · simp [Store.setKey, hq] at h
        rcases h with h | h
        · exact Or.inl h
        · exact Or.inr (List.mem_cons_of_mem q h)
      · simp [Store.setKey, hq] at h
        rcases h with h | h
        · exact Or.inr (h ▸ List.mem_cons_self q rest)
        · rcases ih h with h' | h'
          · exact Or.inl h'
          · exact Or.inr (List.mem_cons_of_mem q h')

theorem byStartTime_trans (a b c : String × PerformanceMetric)
    (hab : byStartTime a b = true) (hbc : byStartTime b c = true) :
    byStartTime a c = true := by
  simp [byStartTime] at *
  exact le_trans hab hbc

theorem byStartTime_total (a b : String × PerformanceMetric) :
    (byStartTime a b || byStartTime b a) = true := by
  simp [byStartTime]
  exact le_total a.2.startTime b.2.startTime

/-- `clearOldMetrics` on a nonempty store deletes the key of one entry whose
`startTime` is minimal among all entries. -/
theorem clearOldMetrics_spec (s : Store) (h : s ≠ []) :
    ∃ k m, (k, m) ∈ s ∧ clearOldMetrics s = Store.deleteKey k s ∧
      ∀ p ∈ s, m.startTime ≤ p.2.startTime := by
  have hperm := List.mergeSort_perm s byStartTime
  have hne : List.mergeSort s byStartTime ≠ [] := by
    intro hnil
    rw [hnil] at hperm
    exact h hperm.symm.eq_nil
  obtain ⟨hd, tl, hl⟩ := List.exists_cons_of_ne_nil hne
  refine ⟨hd.1, hd.2, ?_, ?_, ?_⟩
  · have hmem : hd ∈ List.mergeSort s byStartTime := by
      rw [hl]; exact List.mem_cons_self _ _
    have := hperm.mem_iff.mp hmem
    simpa using this
  · simp [clearOldMetrics, hl]
  · intro p hp
    have hsorted := List.sorted_mergeSort byStartTime_trans byStartTime_total s
    rw [hl] at hsorted
    have hp' : p ∈ List.mergeSort s byStartTime := hperm.mem_iff.mpr hp
    rw [hl] at hp'
    rcases List.mem_cons.mp hp' with rfl | hmem
    · exact le_refl _
    · have := (List.pairwise_cons.mp hsorted).1 p hmem
      simpa [byStartTime] using this

theorem mem_clearOldMetrics_sub {p : String × PerformanceMetric} {s : Store}
    (h : p ∈ clearOldMetrics s) : p ∈ s := by
  unfold clearOldMetrics at h
  cases hl : List.head? (List.mergeSort s byStartTime) with
  | none => rw [hl] at h; exact h
  | some hd => rw [hl] at h; exact mem_deleteKey_sub h

/-- Right after `startMeasure(name)`, the record for `name` is a fresh one with
the sampled timestamp and no `endTime`/`duration`, whatever the prior state. -/
theorem lookup_startMeasure_self (t : Int) (name : String) (s : Store) :
    Store.lookup name (startMeasure t name s) = some ⟨name, t, none, none⟩ := by
  unfold startMeasure
  exact lookup_setKey_self name _ _

/-! ### Claim theorems -/

/-- C3: for every store state and every name not currently tracked,
`endMeasure(name)` returns absent, emits a warning-level log (and nothing else),
does not fail (it is a total function), and leaves the store — in particular its
size — unchanged. -/
theorem endMeasure_untracked (t : Int) (name : String) (s : Store)
    (h : Store.lookup name s = none) :
    (endMeasure t name s).1 = s ∧
    (endMeasure t name s).2.1 = none ∧
    (endMeasure t name s).2.2 =
      [⟨LogLevel.warn, "計測 \"" ++ name ++ "\" が見つかりません", []⟩] ∧
    Store.size (endMeasure t name s).1 = Store.size s := by
  simp [endMeasure, h]

theorem endMeasure_untracked_witness :
    Store.lookup "x" ([] : Store) = none ∧
    ((endMeasure 7 "x" ([] : Store)).1 = ([] : Store) ∧
      (endMeasure 7 "x" ([] : Store)).2.1 = none ∧
      (endMeasure 7 "x" ([] : Store)).2.2 =
        [⟨LogLevel.warn, "計測 \"" ++ "x" ++ "\" が見つかりません", []⟩] ∧
      Store.size (endMeasure 7 "x" ([] : Store)).1 = Store.size ([] : Store)) :=
  ⟨rfl, endMeasure_untracked 7 "x" [] rfl⟩

/-- C4: after `start(name)` immediately followed by `end(name)`, the stored record
has `startTime = t1`, `endTime = t2`, `duration = t2 - t1` (exactly
`endTime − startTime`), `end` returns that duration, and under a monotone clock
(`t1 ≤ t2`) the duration is nonnegative. -/
theorem startThenEnd_duration (t1 t2 : Int) (name : String) (s : Store)
    (hmono : t1 ≤ t2) :
    ∃ m, Store.lookup name (endMeasure t2 name (startMeasure t1 name s)).1 = some m ∧
      m.startTime = t1 ∧ m.endTime = some t2 ∧
      m.duration = some (t2 - t1) ∧
      (endMeasure t2 name (startMeasure t1 name s)).2.1 = some (t2 - t1) ∧
      0 ≤ t2 - t1 := by
  have hl := lookup_startMeasure_self t1 name s
  refine ⟨⟨name, t1, some t2, some (t2 - t1)⟩, ?_, rfl, rfl, rfl, ?_, by omega⟩
  · simp [endMeasure, hl, lookup_setKey_self]
  · simp [endMeasure, hl]

theorem startThenEnd_duration_witness :
    (0 : Int) ≤ 5 ∧
    (∃ m, Store.lookup "op" (endMeasure 5 "op" (startMeasure 0 "op" ([] : Store))).1
        = some m ∧
      m.startTime = 0 ∧ m.endTime = some 5 ∧
      m.duration = some (5 - 0) ∧
      (endMeasure 5 "op" (startMeasure 0 "op" ([] : Store))).2.1 = some (5 - 0) ∧
      (0 : Int) ≤ 5 - 0) :=
  ⟨by decide, startThenEnd_duration 0 5 "op" [] (by decide)⟩

/-- C6: calling `start(name)` twice without an intervening `end(name)` overwrites
the first record entirely: afterwards `getMetric(name)` holds the second call's
timestamp and no `endTime`/`duration`. -/
theorem startTwice_overwrites (t1 t2 : Int) (name : String) (s : Store) :
    getMetric name (startMeasure t2 name (startMeasure t1 name s)) =
      some ⟨name, t2, none, none⟩ :=
  lookup_startMeasure_self t2 name _

/-! ### C5: the duration/endTime invariant over all reachable states -/

/-- One invocation of a public `PerformanceMonitor` operation, with the timestamp
the clock hands it. -/
inductive Op where
  | startOp : Int → String → Op
  | endOp : Int → String → Op
  | getOp : String → Op
  | getAllOp : Op
  | clearOp : Op
deriving DecidableEq, Repr

/-- State transition of one public operation (`getMetric`/`getAllMetrics` are
reads and leave the store as is). -/
def runOp (s : Store) : Op → Store
  | Op.startOp t n => startMeasure t n s
  | Op.endOp t n => (endMeasure t n s).1
  | Op.getOp _ => s
  | Op.getAllOp => s
  | Op.clearOp => clearMetrics s

/-- Run a sequence of public operations from a given store state. -/
def runOps (s : Store) (ops : List Op) : Store := List.foldl runOp s ops

/-- The record invariant: `duration` is present iff `endTime` is present. -/
def DurInv (s : Store) : Prop :=
  ∀ p ∈ s, (Option.isSome p.2.duration = true ↔ Option.isSome p.2.endTime = true)

theorem durInv_startMeasure {s : Store} (h : DurInv s) (t : Int) (n : String) :
    DurInv (startMeasure t n s) := by
  intro p hp
  unfold startMeasure at hp
  rcases mem_setKey hp with rfl | hp'
  · simp
  · by_cases hc : maxMetrics ≤ Store.size s
    · simp only [hc, if_pos] at hp'
      exact h p (mem_clearOldMetrics_sub hp')
    · simp only [hc, if_neg, not_false_iff] at hp'
      exact h p hp'

theorem durInv_endMeasure {s : Store} (h : DurInv s) (t : Int) (n : String) :
    DurInv (endMeasure t n s).1 := by
  intro p hp
  unfold endMeasure at hp
  cases hl : Store.lookup n s with
  | none => rw [hl] at hp; exact h p hp
  | some metric =>
      rw [hl] at hp
      rcases mem_setKey hp with rfl | hp'
      · simp
      · exact h p hp'

theorem durInv_runOp {s : Store} (h : DurInv s) (op : Op) : DurInv (runOp s op) := by
  cases op with
  | startOp t n => exact durInv_startMeasure h t n
  | endOp t n => exact durInv_endMeasure h t n
  | getOp n => exact h
  | getAllOp => exact h
  | clearOp => intro p hp; simp [runOp, clearMetrics] at hp

theorem durInv_runOps {s : Store} (h : DurInv s) (ops : List Op) :
    DurInv (runOps s ops) := by
  induction ops generalizing s with
  | nil => exact h
  | cons op rest ih => exact ih (durInv_runOp h op)

/-- C5: in every store state reachable from the initial (empty) store by a
sequence of public operations, every record has `duration` present iff `endTime`
is present. -/
theorem duration_iff_endTime_reachable (ops : List Op) :
    DurInv (runOps ([] : Store) ops) :=
  durInv_runOps (by intro p hp; simp at hp) ops

/-- C8: the threshold logger always emits exactly one informational line carrying
the elapsed time, and emits a warning line iff the elapsed time strictly exceeds
100 ms. (It takes no store and returns only log lines: it cannot mutate the
`MetricStore` and is a total function.) -/
theorem monitorPerformance_logs (functionName : String) (startTime now : Int) :
    List.filter (fun ev => ev.level == LogLevel.info)
        (monitorPerformance functionName startTime now) =
      [⟨LogLevel.info,
        "Performance: " ++ functionName ++ " - " ++ toString (now - startTime) ++ "ms",
        [now - startTime]⟩] ∧
    ((∃ ev ∈ monitorPerformance functionName startTime now,
        ev.level = LogLevel.warn) ↔ 100 < now - startTime) := by
  by_cases hc : (100 : Int) < now - startTime
  · have hrw : monitorPerformance functionName startTime now =
        [⟨LogLevel.warn,
          "Performance warning: " ++ functionName ++ " took "
            ++ toString (now - startTime) ++ "ms to execute", [now - startTime]⟩,
         ⟨LogLevel.info,
          "Performance: " ++ functionName ++ " - " ++ toString (now - startTime)
            ++ "ms", [now - startTime]⟩] := by
      simp [monitorPerformance, hc]
    rw [hrw]
    refine ⟨by simp, ?_, ?_⟩
    · intro _; exact hc
    · intro _; exact ⟨_, List.mem_cons_self _ _, rfl⟩
  · have hrw : monitorPerformance functionName startTime now =
        [⟨LogLevel.info,
          "Performance: " ++ functionName ++ " - " ++ toString (now - startTime)
            ++ "ms", [now - startTime]⟩] := by
      simp [monitorPerformance, hc]
    rw [hrw]
    refine ⟨by simp, ?_, ?_⟩
    · intro hex
      rcases hex with ⟨ev, hev, hlev⟩
      simp at hev
      rw [hev] at hlev
      simp at hlev
    · intro hlt; exact absurd hlt hc

/-- C9: the render-wrapper returns the wrapped render output unchanged and emits
exactly one debug log carrying the computed duration and the two timestamps; it
takes no store and returns none: it performs no operation on the `MetricStore`. -/
theorem withPerformanceMonitoring_frame {P R : Type} (render : P → R)
    (componentName : String) (t1 t2 : Int) (props : P) :
    (withPerformanceMonitoring render componentName t1 t2 props).1 = render props ∧
    (withPerformanceMonitoring render componentName t1 t2 props).2 =
      [⟨LogLevel.debug, "コンポーネントレンダリング: " ++ componentName,
        [t2 - t1, t1, t2]⟩] :=
  ⟨rfl, rfl⟩

/-- C1: on a well-formed store holding exactly 1000 records, `startMeasure` with a
fresh name first deletes exactly one existing record — one whose `startTime` is
minimal among all held records — and then inserts the new one, leaving the store
size at most 1000. -/
theorem startMeasure_atCapacity_fresh (t : Int) (name : String) (s : Store)
    (hnd : Store.KeysNodup s) (hlen : Store.size s = 1000)
    (hfresh : Store.lookup name s = none) :
    ∃ k m, Store.lookup k s = some m ∧
      startMeasure t name s =
        Store.setKey name ⟨name, t, none, none⟩ (Store.deleteKey k s) ∧
      (∀ p ∈ s, m.startTime ≤ p.2.startTime) ∧
      Store.size (Store.deleteKey k s) = 999 ∧
      Store.size (startMeasure t name s) ≤ 1000 := by
  have hne : s ≠ [] := by
    intro hnil
    rw [hnil] at hlen
    simp [Store.size] at hlen
  obtain ⟨k, m, hmem, heq, hmin⟩ := clearOldMetrics_spec s hne
  have hlk : Store.lookup k s = some m := lookup_eq_some_of_mem hnd hmem
  have hcap : maxMetrics ≤ Store.size s := by
    rw [hlen]; exact le_refl _
  have hstart : startMeasure t name s =
      Store.setKey name ⟨name, t, none, none⟩ (Store.deleteKey k s) := by
    unfold startMeasure
    rw [if_pos hcap, heq]
  have hdel : Store.size (Store.deleteKey k s) = 999 := by
    have := deleteKey_length hlk
    unfold Store.size at *
    omega
  refine ⟨k, m, hlk, hstart, hmin, hdel, ?_⟩
  rw [hstart]
  have hfresh' : Store.lookup name (Store.deleteKey k s) = none :=
    lookup_deleteKey_none hfresh
  have := setKey_length_fresh (⟨name, t, none, none⟩ : PerformanceMetric) hfresh'
  unfold Store.size at *
  omega

/-- C10: on a well-formed store holding exactly 1000 records where `name` is
already a key but its record's `startTime` is not minimal, `startMeasure(name)`
still deletes the minimal-`startTime` record — a record of a different key — and
then overwrites `name`'s record, so the store size drops to 999. -/
theorem startMeasure_atCapacity_existing (t : Int) (name : String) (s : Store)
    (m0 : PerformanceMetric)
    (hnd : Store.KeysNodup s) (hlen : Store.size s = 1000)
    (hname : Store.lookup name s = some m0)
    (hnotmin : ∃ q ∈ s, q.2.startTime < m0.startTime) :
    ∃ k m, Store.lookup k s = some m ∧ k ≠ name ∧
      startMeasure t name s =
        Store.setKey name ⟨name, t, none, none⟩ (Store.deleteKey k s) ∧
      (∀ p ∈ s, m.startTime ≤ p.2.startTime) ∧
      Store.size (startMeasure t name s) = 999 := by
  have hne : s ≠ [] := by
    intro hnil
    rw [hnil] at hlen
    simp [Store.size] at hlen
  obtain ⟨k, m, hmem, heq, hmin⟩ := clearOldMetrics_spec s hne
  have hlk : Store.lookup k s = some m := lookup_eq_some_of_mem hnd hmem
  obtain ⟨q, hq, hqlt⟩ := hnotmin
  have hmlt : m.startTime < m0.startTime := lt_of_le_of_lt (hmin q hq) hqlt
  have hkne : k ≠ name := by
    intro hk
    rw [hk, hname] at hlk
    have : m = m0 := by
      injection hlk with h0
      exact h0.symm
    rw [this] at hmlt
    exact lt_irrefl _ hmlt
  have hcap : maxMetrics ≤ Store.size s := by
    rw [hlen]; exact le_refl _
  have hstart : startMeasure t name s =
      Store.setKey name ⟨name, t, none, none⟩ (Store.deleteKey k s) := by
    unfold startMeasure
    rw [if_pos hcap, heq]
  refine ⟨k, m, hlk, hkne, hstart, hmin, ?_⟩
  rw [hstart]
  have hdel : Store.size (Store.deleteKey k s) = 999 := by
    have := deleteKey_length hlk
    unfold Store.size at *
    omega
  have hname' : Store.lookup name (Store.deleteKey k s) = some m0 := by
    rw [lookup_deleteKey_ne k name s (Ne.symm hkne)]
    exact hname
  have := setKey_length_mem (⟨name, t, none, none⟩ : PerformanceMetric) hname'
  unfold Store.size at *
  omega

/-- C2: when the wrapped callable fails, the decorator's method still applies
`endMeasure(name)` to the callable's resulting state before returning (the final
store is the end-updated one handed back with the error), re-raises the original
error unchanged, performs the start and end store calls exactly once each (in
that order), and — provided the callable left `name`'s record in place, as the
single-threaded non-interference model assumes — `getMetric(name)` afterwards has
`endTime` set. -/
theorem measure_failure {ε α : Type} (t1 t2 : Int) (name : String)
    (f : Store → Store × Except ε α) (s : Store) (e : ε)
    (herr : (f (startMeasure t1 name s)).2 = Except.error e)
    (m : PerformanceMetric)
    (hm : Store.lookup name (f (startMeasure t1 name s)).1 = some m) :
    (measure t1 t2 name f s).2.1 = Except.error e ∧
    (measure t1 t2 name f s).1 =
      (endMeasure t2 name (f (startMeasure t1 name s)).1).1 ∧
    (measure t1 t2 name f s).2.2 = [MEvent.startCall name, MEvent.endCall name] ∧
    List.count (MEvent.startCall name) (measure t1 t2 name f s).2.2 = 1 ∧
    List.count (MEvent.endCall name) (measure t1 t2 name f s).2.2 = 1 ∧
    ∃ m', getMetric name (measure t1 t2 name f s).1 = some m' ∧
      m'.endTime = some t2 := by
  have hms : measure t1 t2 name f s =
      ((endMeasure t2 name (f (startMeasure t1 name s)).1).1, Except.error e,
        [MEvent.startCall name, MEvent.endCall name]) := by
    simp only [measure]
    rw [herr]
  rw [hms]
  refine ⟨rfl, rfl, rfl, by simp, by simp, ?_⟩
  refine ⟨{ m with endTime := some t2, duration := some (t2 - m.startTime) },
    ?_, rfl⟩
  simp [getMetric, endMeasure, hm, lookup_setKey_self]

/-- C7: when the wrapped callable succeeds, the decorator's method returns the
callable's result unchanged, and applies `endMeasure(name)` to the callable's
resulting state (the end store call comes after the start call and the
callable's completion, each performed once). -/
theorem measure_success {ε α : Type} (t1 t2 : Int) (name : String)
    (f : Store → Store × Except ε α) (s : Store) (a : α)
    (hok : (f (startMeasure t1 name s)).2 = Except.ok a) :
    (measure t1 t2 name f s).2.1 = Except.ok a ∧
    (measure t1 t2 name f s).1 =
      (endMeasure t2 name (f (startMeasure t1 name s)).1).1 ∧
    (measure t1 t2 name f s).2.2 = [MEvent.startCall name, MEvent.endCall name] := by
  have hms : measure t1 t2 name f s =
      ((endMeasure t2 name (f (startMeasure t1 name s)).1).1, Except.ok a,
        [MEvent.startCall name, MEvent.endCall name]) := by
    simp only [measure]
    rw [hok]
  rw [hms]
  exact ⟨rfl, rfl, rfl⟩

/-! ### Concrete inputs for the witnesses -/

/-- A wrapped callable that throws `"boom"` without touching the store. -/
def boomFn : Store → Store × Except String Nat :=
  fun st => (st, Except.error "boom")

/-- A wrapped callable that returns `42` without touching the store. -/
def okFn : Store → Store × Except String Nat :=
  fun st => (st, Except.ok 42)

/-- Distinct keys for a concrete full store: the string of `i` letters `a`. -/
def akey (i : Nat) : String := String.mk (List.replicate i 'a')

/-- The record stored under `akey i` in the concrete full store. -/
def testMetric (i : Nat) : PerformanceMetric := ⟨akey i, (i : Int), none, none⟩

/-- A concrete well-formed store holding exactly 1000 records with pairwise
distinct keys and startTimes `0, …, 999`. -/
def testStore : Store :=
  List.map (fun i => (akey i, testMetric i)) (List.range 1000)

theorem akey_injective : Function.Injective akey := by
  intro a b h
  have h2 : List.replicate a 'a' = List.replicate b 'a' := congrArg String.data h
  have h3 := congrArg List.length h2
  simpa using h3

theorem testStore_keysNodup : Store.KeysNodup testStore := by
  unfold Store.KeysNodup testStore
  rw [List.map_map]
  exact ((List.nodup_range 1000).map akey_injective :
    (List.map akey (List.range 1000)).Nodup)

theorem testStore_size : Store.size testStore = 1000 := by
  simp [testStore, Store.size]

theorem akey_ne_b (i : Nat) : akey i ≠ "b" := by
  intro h
  have h2 : List.replicate i 'a' = "b".data := congrArg String.data h
  cases i with
  | zero => exact absurd h2 (by decide)
  | succ n =>
      rw [List.replicate_succ] at h2
      have hb : "b".data = ['b'] := rfl
      rw [hb] at h2
      injection h2 with hc ht
      exact absurd hc (by decide)

theorem lookup_b_testStore : Store.lookup "b" testStore = none := by
  rw [lookup_eq_none_iff]
  intro p hp
  simp only [testStore, List.mem_map, List.mem_range] at hp
  obtain ⟨i, hi, hpe⟩ := hp
  rw [← hpe]
  exact akey_ne_b i

theorem mem_testStore (i : Nat) (hi : i < 1000) :
    (akey i, testMetric i) ∈ testStore :=
  List.mem_map.mpr ⟨i, List.mem_range.mpr hi, rfl⟩

theorem lookup_akey1_testStore :
    Store.lookup (akey 1) testStore = some (testMetric 1) :=
  lookup_eq_some_of_mem testStore_keysNodup (mem_testStore 1 (by omega))

theorem testStore_notmin :
    ∃ q ∈ testStore, q.2.startTime < (testMetric 1).startTime :=
  ⟨(akey 0, testMetric 0), mem_testStore 0 (by omega), by
    simp [testMetric]⟩

/-! ### Witnesses -/

theorem startMeasure_atCapacity_fresh_witness :
    Store.KeysNodup testStore ∧ Store.size testStore = 1000 ∧
    Store.lookup "b" testStore = none ∧
    (∃ k m, Store.lookup k testStore = some m ∧
      startMeasure 42 "b" testStore =
        Store.setKey "b" ⟨"b", 42, none, none⟩ (Store.deleteKey k testStore) ∧
      (∀ p ∈ testStore, m.startTime ≤ p.2.startTime) ∧
      Store.size (Store.deleteKey k testStore) = 999 ∧
      Store.size (startMeasure 42 "b" testStore) ≤ 1000) :=
  ⟨testStore_keysNodup, testStore_size, lookup_b_testStore,
    startMeasure_atCapacity_fresh 42 "b" testStore
      testStore_keysNodup testStore_size lookup_b_testStore⟩

theorem startMeasure_atCapacity_existing_witness :
    Store.lookup (akey 1) testStore = some (testMetric 1) ∧
    (∃ k m, Store.lookup k testStore = some m ∧ k ≠ akey 1 ∧
      startMeasure 42 (akey 1) testStore =
        Store.setKey (akey 1) ⟨akey 1, 42, none, none⟩
          (Store.deleteKey k testStore) ∧
      (∀ p ∈ testStore, m.startTime ≤ p.2.startTime) ∧
      Store.size (startMeasure 42 (akey 1) testStore) = 999) :=
  ⟨lookup_akey1_testStore,
    startMeasure_atCapacity_existing 42 (akey 1) testStore (testMetric 1)
      testStore_keysNodup testStore_size lookup_akey1_testStore testStore_notmin⟩

theorem measure_failure_witness :
    (measure 0 5 "op" boomFn ([] : Store)).2.1 = Except.error "boom" ∧
    (measure 0 5 "op" boomFn ([] : Store)).1 =
      (endMeasure 5 "op" (boomFn (startMeasure 0 "op" ([] : Store))).1).1 ∧
    (measure 0 5 "op" boomFn ([] : Store)).2.2 =
      [MEvent.startCall "op", MEvent.endCall "op"] ∧
    List.count (MEvent.startCall "op") (measure 0 5 "op" boomFn ([] : Store)).2.2
      = 1 ∧
    List.count (MEvent.endCall "op") (measure 0 5 "op" boomFn ([] : Store)).2.2
      = 1 ∧
    (∃ m', getMetric "op" (measure 0 5 "op" boomFn ([] : Store)).1 = some m' ∧
      m'.endTime = some 5) :=
  measure_failure 0 5 "op" boomFn [] "boom" rfl ⟨"op", 0, none, none⟩ (by decide)

theorem measure_success_witness :
    (measure 0 5 "op" okFn ([] : Store)).2.1 = Except.ok 42 ∧
    (measure 0 5 "op" okFn ([] : Store)).1 =
      (endMeasure 5 "op" (okFn (startMeasure 0 "op" ([] : Store))).1).1 ∧
    (measure 0 5 "op" okFn ([] : Store)).2.2 =
      [MEvent.startCall "op", MEvent.endCall "op"] :=
  measure_success 0 5 "op" okFn [] 42 rfl

end Perf
